import Mathlib

/-!
# nak: the `event` command

A shallow embedding of `src/event.go` (the `Action` of the `event` command) and
theorems about it.

* Go strings are byte sequences, so `GoString` is `List UInt8`.
* The command's flags and positional arguments are the record `Context`.
* The collaborators the command calls (the clock, the signer, the relay
  connection and publish calls, the three encoders) are the fields of `Env`.
* Everything the command does to the outside world is recorded, in program
  order, in a list of `Effect`s; `Action` returns that list together with the
  `error` value of the Go function.
-/

namespace Nak

/-! ## Strings -/

/-- A Go `string`: an immutable sequence of bytes. -/
abbrev GoString := List UInt8

/-- The bytes of a Go string literal (Go source text is UTF-8). -/
def str (s : String) : GoString := s.data.flatMap String.utf8EncodeChar

/-- The byte of an ASCII character literal such as `'='`. -/
def byte (c : Char) : UInt8 := c.toNat.toUInt8

/-- Go `strings.Split(s, sep)` for a one-byte separator `sep`, the only form
`event.go` uses (`"="` and `";"`): the pieces of `s` between the occurrences of
`sep`, in order; a string without `sep` (the empty string too) gives the
one-element slice `[s]`. -/
def Split : GoString → UInt8 → List GoString
  | [], _ => [[]]
  | c :: cs, sep =>
    if c = sep then [] :: Split cs sep
    else
      match Split cs sep with
      | [] => [[c]]
      | piece :: pieces => (c :: piece) :: pieces

/-! ## Data model (`nostr.Event`, `nostr.Tag`, `nostr.Tags`) -/

/-- Type `nostr.Tag`, a slice of strings. -/
abbrev Tag := List GoString

/-- Type `nostr.Tags`, a slice of tags. -/
abbrev Tags := List Tag

/-- Type `nostr.Event`. `CreatedAt` is a `nostr.Timestamp` (an `int64`), `Kind` an `int`. -/
structure Event where
  ID : GoString
  PubKey : GoString
  CreatedAt : Int
  Kind : Int
  Tags : Tags
  Content : GoString
  Sig : GoString
  deriving DecidableEq, Repr

/-- The flags and arguments of one invocation, as `Action` reads them from
`*cli.Context`: `c.String("sec")`, `c.Bool("envelope")`, `c.Bool("nson")`,
`c.Int("kind")`, `c.String("content")`, `c.StringSlice("tag")`,
`c.StringSlice("e")`, `c.StringSlice("p")`, `c.String("created-at")` and
`c.Args().Slice()`. -/
structure Context where
  sec : GoString
  envelope : Bool
  nson : Bool
  kind : Int
  content : GoString
  tag : List GoString
  e : List GoString
  p : List GoString
  createdAt : GoString
  args : List GoString
  deriving DecidableEq, Repr

/-! ## Tag assembly (`event.go` lines 91-114) -/

/-- One iteration of the loop over `c.StringSlice("tag")` (lines 93-102):
`spl := strings.Split(tagFlag, "=")`; when `len(spl) == 2 && len(spl[0]) > 0`
the tag `spl[0]` followed by `strings.Split(spl[1], ";")` is appended. -/
def tagStep (tags : Tags) (tagFlag : GoString) : Tags :=
  match Split tagFlag (byte '=') with
  | [spl0, spl1] =>
    if spl0.length > 0 then
      let tag : Tag := [spl0]
      let spl2 := Split spl1 (byte ';')
      let tag := tag ++ spl2
      tags ++ [tag]
    else tags
  | _ => tags

/-- The three loops of lines 91-109: generic tags, then `e` tags, then `p` tags,
each appended to the local slice `tags`. -/
def collectTags (c : Context) : Tags :=
  let tags : Tags := []
  let tags := c.tag.foldl tagStep tags
  let tags := c.e.foldl (fun tags etag => tags ++ [[str "e", etag]]) tags
  let tags := c.p.foldl (fun tags ptag => tags ++ [[str "p", ptag]]) tags
  tags

/-- The value of `evt.Tags` after line 114: it starts empty (line 88) and, when
`len(tags) > 0`, every collected tag is appended to it in order. -/
def assembleTags (c : Context) : Tags :=
  let evtTags : Tags := []
  let tags := collectTags c
  if tags.length > 0 then tags.foldl (fun evtTags tag => evtTags ++ [tag]) evtTags
  else evtTags

/-! ## `strconv.ParseInt(s, 10, 64)` -/

/-- The two sentinel errors of package `strconv`: `ErrSyntax` and `ErrRange`. -/
inductive NumError where
  | ErrSyntax
  | ErrRange
  deriving DecidableEq, Repr

/-- Largest `uint64`. -/
def maxUint64 : Nat := 2 ^ 64 - 1

/-- Function `lower` of package `strconv`: `c | ('x' - 'X')`. -/
def lower (c : UInt8) : UInt8 := c ||| 32

/-- The digit loop of `strconv.ParseUint(s, 10, 64)` from the accumulator `n`:
the result is the pair `(value, err)` that Go returns. A byte that is not a
base-10 digit is a syntax error; an accumulator that would leave `uint64` is a
range error with value `maxUint64`. -/
def parseUintLoop : Nat → GoString → Nat × Option NumError
  | n, [] => (n, none)
  | n, c :: cs =>
    let digit : Option Nat :=
      if byte '0' ≤ c ∧ c ≤ byte '9' then some (c - byte '0').toNat
      else if byte 'a' ≤ lower c ∧ lower c ≤ byte 'z' then some (lower c - byte 'a' + 10).toNat
      else none
    match digit with
    | none => (0, some NumError.ErrSyntax)
    | some d =>
      if d ≥ 10 then (0, some NumError.ErrSyntax)
      else if n ≥ maxUint64 / 10 + 1 then (maxUint64, some NumError.ErrRange)
      else
        let n := n * 10 % 2 ^ 64
        let n1 := (n + d) % 2 ^ 64
        if n1 < n ∨ n1 > maxUint64 then (maxUint64, some NumError.ErrRange)
        else parseUintLoop n1 cs

/-- Go `strconv.ParseUint(s, 10, 64)`. -/
def ParseUint (s : GoString) : Nat × Option NumError :=
  if s = [] then (0, some NumError.ErrSyntax) else parseUintLoop 0 s

/-- Go `strconv.ParseInt(s, 10, 64)`: an optional sign, then `ParseUint`, then
the check against the cutoff `1 << 63`. -/
def ParseInt (s : GoString) : Except NumError Int :=
  match s with
  | [] => .error NumError.ErrSyntax
  | c :: cs =>
    let neg := c = byte '-'
    let s1 := if c = byte '+' then cs else if c = byte '-' then cs else c :: cs
    match ParseUint s1 with
    | (_, some NumError.ErrSyntax) => .error NumError.ErrSyntax
    | (un, _) =>
      let cutoff : Nat := 2 ^ 63
      if ¬ neg ∧ un ≥ cutoff then .error NumError.ErrRange
      else if neg ∧ un > cutoff then .error NumError.ErrRange
      else if neg then .ok (-(un : Int)) else .ok (un : Int)

/-! ## Package `time`: `time.Unix(sec, nsec)` and `Time.Unix()` -/

/-- An `int64` result of Go arithmetic: two-complement wrap-around. -/
def wrapInt64 (x : Int) : Int := (x + 2 ^ 63) % 2 ^ 64 - 2 ^ 63

/-- Constant `unixToInternal` of package `time`: seconds from year 1 to 1970. -/
def unixToInternal : Int := (1969 * 365 + 1969 / 4 - 1969 / 100 + 1969 / 400) * 86400

/-- Constant `internalToUnix` of package `time`. -/
def internalToUnix : Int := -unixToInternal

/-- Constant `wallToInternal` of package `time`: seconds from year 1 to 1885. -/
def wallToInternal : Int := (1884 * 365 + 1884 / 4 - 1884 / 100 + 1884 / 400) * 86400

/-- Type `time.Time` without its location: the `uint64` field `wall` and the
`int64` field `ext`. -/
structure Time where
  wall : Nat
  ext : Int
  deriving DecidableEq, Repr

/-- Go `time.Unix(sec, nsec)`: normalise `nsec` into `[0, 1e9)` when it is
outside, then store `sec + unixToInternal` in `ext` and `nsec` in `wall`. -/
def Unix (sec nsec : Int) : Time :=
  let (sec, nsec) :=
    if nsec < 0 ∨ nsec ≥ 1000000000 then
      let n := Int.tdiv nsec 1000000000
      let sec := wrapInt64 (sec + n)
      let nsec := wrapInt64 (nsec - n * 1000000000)
      if nsec < 0 then (wrapInt64 (sec - 1), wrapInt64 (nsec + 1000000000)) else (sec, nsec)
    else (sec, nsec)
  { wall := (nsec % 2 ^ 32).toNat, ext := wrapInt64 (sec + unixToInternal) }

/-- Method `(*Time).sec`: seconds since year 1; read from `wall` when the
`hasMonotonic` bit (`1 << 63`) is set, from `ext` otherwise. -/
def Time.sec (t : Time) : Int :=
  if t.wall / 2 ^ 63 % 2 = 1 then
    wrapInt64 (wallToInternal + ((t.wall * 2 % 2 ^ 64 / 2 ^ 31 : Nat) : Int))
  else t.ext

/-- Method `Time.Unix()`: `t.sec() + internalToUnix`. -/
def Time.Unix (t : Time) : Int := wrapInt64 (t.sec + internalToUnix)

/-! ## Collaborators and effects -/

/-- An element of the `[]any` slice given to `json.Marshal` on line 151. -/
inductive Any where
  | string (s : GoString)
  | event (evt : Event)
  deriving DecidableEq, Repr

/-- The collaborators of `Action`. The network calls are indexed by the
position of the relay in the argument list, so that two attempts on the same
address may end differently. An `error` is carried as its message. -/
structure Env where
  /-- Result of `time.Now()`. -/
  now : Time
  /-- Method `evt.Sign(sec)`: the signed event, or an error. -/
  Sign : Event → GoString → Except GoString Event
  /-- Call `nostr.RelayConnect(c.Context, url)` for the relay at a position. -/
  RelayConnect : Nat → GoString → Except GoString Unit
  /-- Call `relay.Publish(ctx, evt)` on the relay connected at a position: a
  `nostr.Status` (an `int`), or an error. -/
  Publish : Nat → GoString → Event → Except GoString Int
  /-- Method `String()` of `nostr.Status`, used by the `%s` verb. -/
  statusString : Int → GoString
  /-- Encoder `json.Marshal` on a `[]any`. -/
  jsonMarshal : List Any → GoString
  /-- Encoder `nson.Marshal`. -/
  nsonMarshal : Event → GoString
  /-- Encoder `easyjson.Marshal` on an event. -/
  easyjsonMarshal : Event → GoString

/-- Method `evt.String()` of go-nostr: the `easyjson.Marshal` encoding. -/
def Event.String (env : Env) (evt : Event) : GoString := env.easyjsonMarshal evt

/-- What `Action` does to the outside world, one constructor per kind of call. -/
inductive Effect where
  /-- The signer was invoked on this event with this key. -/
  | sign (evt : Event) (sec : GoString)
  /-- Bytes written to `os.Stdout`. -/
  | stdout (text : GoString)
  /-- Bytes written to `os.Stderr`. -/
  | stderr (text : GoString)
  /-- A connection attempt `nostr.RelayConnect(c.Context, url)`. -/
  | relayConnect (url : GoString)
  /-- Call `context.WithTimeout(c.Context, seconds)` creating the numbered scope. -/
  | withTimeout (scope : Nat) (seconds : Nat)
  /-- Call `relay.Publish(ctx, evt)` under the numbered scope. -/
  | publish (url : GoString) (scope : Nat) (evt : Event)
  /-- Call of the `cancel` function of the numbered scope. -/
  | cancel (scope : Nat)
  deriving DecidableEq, Repr

/-- The error `Action` returns: `fmt.Errorf("failed to parse timestamp '%s': %w", createdAt, err)`
or `fmt.Errorf("error signing with provided key: %w", err)`. -/
inductive ActionError where
  | failedToParseTimestamp (createdAt : GoString) (err : NumError)
  | errorSigning (err : GoString)
  deriving DecidableEq, Repr

/-- Call `fmt.Println(s)`: `s` and a newline on standard output. -/
def Println (s : GoString) : Effect := Effect.stdout (s ++ str "\n")

/-! ## `Action` (`event.go` lines 84-163) -/

/-- Lines 116-125: the value of `ts` after the created-at flag is read. -/
def resolveCreatedAt (env : Env) (createdAt : GoString) : Except ActionError Time :=
  let ts := env.now
  if createdAt ≠ str "now" then
    match ParseInt createdAt with
    | .error err => .error (ActionError.failedToParseTimestamp createdAt err)
    | .ok v => .ok (Unix v 0)
  else .ok ts

/-- Lines 85-125: the event as it stands just before `evt.Sign`, or the
created-at error returned on line 120. -/
def buildEvent (env : Env) (c : Context) : Except ActionError Event :=
  let evt : Event :=
    { ID := [], PubKey := [], CreatedAt := 0, Kind := c.kind, Tags := [],
      Content := c.content, Sig := [] }
  let evt := { evt with Tags := assembleTags c }
  match resolveCreatedAt env c.createdAt with
  | .error err => .error err
  | .ok ts => .ok { evt with CreatedAt := ts.Unix }

/-- The loop over the relays (lines 134-147), from position `i`. The result is
the effects of the iterations in order and the scopes whose `cancel` was
deferred, in the order the `defer` statements ran. -/
def relayLoop (env : Env) (evt : Event) : Nat → List GoString → List Effect × List Nat
  | _, [] => ([], [])
  | i, url :: rest =>
    let announce := Effect.stderr (str "publishing to " ++ url ++ str "... ")
    let (body, deferred) : List Effect × List Nat :=
      match env.RelayConnect i url with
      | .error err =>
        ([Effect.relayConnect url, Effect.stderr (str "failed to connect: " ++ err ++ str "\n")], [])
      | .ok _ =>
        match env.Publish i url evt with
        | .error err =>
          ([Effect.relayConnect url, Effect.withTimeout i 10, Effect.publish url i evt,
            Effect.stderr (str "failed: " ++ err ++ str "\n")], [i])
        | .ok status =>
          ([Effect.relayConnect url, Effect.withTimeout i 10, Effect.publish url i evt,
            Effect.stderr (env.statusString status ++ str ".\n")], [i])
    let (later, laterDeferred) := relayLoop env evt (i + 1) rest
    (announce :: body ++ later, deferred ++ laterDeferred)

/-- Lines 149-159: the string printed in render-only mode. -/
def renderResult (env : Env) (c : Context) (evt : Event) : GoString :=
  if c.envelope then env.jsonMarshal [Any.string (str "EVENT"), Any.event evt]
  else if c.nson then env.nsonMarshal evt
  else env.easyjsonMarshal evt

/-- The `Action` of the `event` command: the effects in program order and the
returned `error` (`.ok ()` for `nil`). Deferred calls run when the function
returns, last deferred first. -/
def Action (env : Env) (c : Context) : List Effect × Except ActionError Unit :=
  match buildEvent env c with
  | .error err => ([], .error err)
  | .ok evt =>
    match env.Sign evt c.sec with
    | .error err => ([Effect.sign evt c.sec], .error (ActionError.errorSigning err))
    | .ok signed =>
      let relays := c.args
      if relays.length > 0 then
        let (loopEffects, deferred) := relayLoop env signed 0 relays
        (Effect.sign evt c.sec :: Println (signed.String env) :: loopEffects
            ++ deferred.reverse.map Effect.cancel, .ok ())
      else
        let result := renderResult env c signed
        ([Effect.sign evt c.sec, Println result], .ok ())

/-! ## Observations on a run -/

/-- The writes to standard output, in order. -/
def stdoutWrites (effects : List Effect) : List GoString :=
  effects.filterMap (fun eff => match eff with | Effect.stdout text => some text | _ => none)

/-- The writes to the diagnostic stream (standard error), in order. -/
def stderrWrites (effects : List Effect) : List GoString :=
  effects.filterMap (fun eff => match eff with | Effect.stderr text => some text | _ => none)

/-- The addresses of the connection attempts, in order. -/
def connectAttempts (effects : List Effect) : List GoString :=
  effects.filterMap (fun eff => match eff with | Effect.relayConnect url => some url | _ => none)

/-- The events handed to the signer, in order. -/
def signerCalls (effects : List Effect) : List Event :=
  effects.filterMap (fun eff => match eff with | Effect.sign evt _ => some evt | _ => none)

/-- The announcement written before the attempt on `url` (line 135). -/
def announcement (url : GoString) : GoString := str "publishing to " ++ url ++ str "... "

/-- The one outcome report of the relay at position `i` (lines 137, 142, 144):
connection failed, publish failed, or published with the status of the relay. -/
def outcomeReport (env : Env) (evt : Event) (i : Nat) (url : GoString) : GoString :=
  match env.RelayConnect i url with
  | .error err => str "failed to connect: " ++ err ++ str "\n"
  | .ok _ =>
    match env.Publish i url evt with
    | .error err => str "failed: " ++ err ++ str "\n"
    | .ok status => env.statusString status ++ str ".\n"

/-- The number of timeout scopes created and not yet cancelled after each
effect of a run, starting from `live` such scopes. -/
def liveScopes : Nat → List Effect → List Nat
  | _, [] => []
  | live, Effect.withTimeout _ _ :: rest => (live + 1) :: liveScopes (live + 1) rest
  | live, Effect.cancel _ :: rest => (live - 1) :: liveScopes (live - 1) rest
  | live, _ :: rest => live :: liveScopes live rest

/-! ## Concrete inputs -/

/-- A sample world: the signer refuses the empty key; the relay at position 1
refuses the connection, the one at position 0 fails the publish, every other
relay accepts. -/
def sampleEnv : Env where
  now := Unix 1700000000 0
  Sign := fun evt sec =>
    if sec = [] then .error (str "invalid key")
    else .ok { evt with ID := str "id", PubKey := str "pk", Sig := str "sig" }
  RelayConnect := fun i _ => if i = 1 then .error (str "refused") else .ok ()
  Publish := fun i _ _ => if i = 0 then .error (str "timeout") else .ok 1
  statusString := fun status => if status = 1 then str "success" else str "failed"
  jsonMarshal := fun xs => str "J" ++ xs.flatMap
    (fun x => match x with | Any.string t => t | Any.event evt => evt.Content)
  nsonMarshal := fun evt => str "N" ++ evt.Content
  easyjsonMarshal := fun evt => str "E" ++ evt.Content

/-- A sample world in which every connection and every publish succeeds. -/
def acceptingEnv : Env :=
  { sampleEnv with RelayConnect := fun _ _ => .ok (), Publish := fun _ _ _ => .ok 1 }

/-- A sample invocation: `-t "k=v1;;v3" -t zz -e 1 -p 2 --ts 42 r1 r2 r3`. -/
def sampleContext : Context where
  sec := str "01"
  envelope := false
  nson := false
  kind := 1
  content := str "hi"
  tag := [str "k=v1;;v3", str "zz"]
  e := [str "1"]
  p := [str "2"]
  createdAt := str "42"
  args := [str "r1", str "r2", str "r3"]

/-- The event `sampleContext` hands to the signer. -/
def sampleEvent : Event where
  ID := []
  PubKey := []
  CreatedAt := 42
  Kind := 1
  Tags := [[str "k", str "v1", [], str "v3"], [str "e", str "1"], [str "p", str "2"]]
  Content := str "hi"
  Sig := []

/-- The event `sampleEnv` returns for `sampleEvent`. -/
def sampleSigned : Event :=
  { sampleEvent with ID := str "id", PubKey := str "pk", Sig := str "sig" }

/-- A sample invocation with two relays: `sampleContext` with arguments `r1 r2`. -/
def twoRelayContext : Context := { sampleContext with args := [str "r1", str "r2"] }

deriving instance DecidableEq for Except

/-! ## Splitting -/

theorem Split_ne_nil (s : GoString) (sep : UInt8) : Split s sep ≠ [] := by
  cases s with
  | nil => simp [Split]
  | cons c cs =>
    unfold Split
    split_ifs
    · simp
    · split <;> simp

theorem Split_of_not_mem {sep : UInt8} : ∀ {s : GoString}, sep ∉ s → Split s sep = [s]
  | [], _ => by simp [Split]
  | c :: cs, h => by
    have hc : c ≠ sep := fun e => h (by simp [e])
    have hcs : sep ∉ cs := fun m => h (List.mem_cons_of_mem _ m)
    simp [Split, hc, Split_of_not_mem hcs]

theorem Split_append_cons {sep : UInt8} (b : GoString) :
    ∀ {a : GoString}, sep ∉ a → Split (a ++ sep :: b) sep = a :: Split b sep
  | [], _ => by simp [Split]
  | c :: cs, h => by
    have hc : c ≠ sep := fun e => h (by simp [e])
    have hcs : sep ∉ cs := fun m => h (List.mem_cons_of_mem _ m)
    simp [Split, hc, Split_append_cons b hcs]

theorem Split_length_of_mem {sep : UInt8} : ∀ {s : GoString}, sep ∈ s → 2 ≤ (Split s sep).length
  | c :: cs, h => by
    by_cases hc : c = sep
    · have := Split_ne_nil cs sep
      simp only [Split, hc, if_true, List.length_cons]
      have : 0 < (Split cs sep).length := List.length_pos.mpr this
      omega
    · have hcs : sep ∈ cs := by
        rcases List.mem_cons.mp h with e | m
        · exact absurd e.symm hc
        · exact m
      have ih := Split_length_of_mem hcs
      simp only [Split, hc, if_false]
      split
      · rename_i heq; simp [heq] at ih
      · rename_i heq; simpa [heq] using ih

theorem Split_intercalate {sep : UInt8} :
    ∀ (vs : List GoString), vs ≠ [] → (∀ v ∈ vs, sep ∉ v) →
      Split (List.intercalate [sep] vs) sep = vs
  | [v], _, h => by
    have : sep ∉ v := h v (by simp)
    simpa [List.intercalate] using Split_of_not_mem this
  | v :: w :: rest, _, h => by
    have hv : sep ∉ v := h v (by simp)
    have ih := Split_intercalate (w :: rest) (by simp) (fun u hu => h u (List.mem_cons_of_mem _ hu))
    have e : List.intercalate [sep] (v :: w :: rest) = v ++ sep :: List.intercalate [sep] (w :: rest) := by
      simp [List.intercalate, List.intersperse]
    rw [e, Split_append_cons _ hv, ih]

theorem not_mem_intercalate {a sep : UInt8} (hne : a ≠ sep) :
    ∀ (vs : List GoString), (∀ v ∈ vs, a ∉ v) → a ∉ List.intercalate [sep] vs
  | [], _ => by simp [List.intercalate]
  | [v], h => by simpa [List.intercalate] using h v (by simp)
  | v :: w :: rest, h => by
    have ih := not_mem_intercalate hne (w :: rest) (fun u hu => h u (List.mem_cons_of_mem _ hu))
    have e : List.intercalate [sep] (v :: w :: rest) = v ++ sep :: List.intercalate [sep] (w :: rest) := by
      simp [List.intercalate, List.intersperse]
    rw [e]
    simp only [List.mem_append, List.mem_cons, not_or]
    exact ⟨h v (by simp), hne, ih⟩


/-! ## Tag assembly -/

theorem tagStep_accept (tags : Tags) {k rest : GoString} (hk : k ≠ [])
    (hkeq : byte '=' ∉ k) (hrest : byte '=' ∉ rest) :
    tagStep tags (k ++ byte '=' :: rest) = tags ++ [k :: Split rest (byte ';')] := by
  have hlen : 0 < k.length := List.length_pos.mpr hk
  simp [tagStep, Split_append_cons rest hkeq, Split_of_not_mem hrest, hlen]

theorem tagStep_many_eq (tags : Tags) {k rest : GoString}
    (hkeq : byte '=' ∉ k) (hrest : byte '=' ∈ rest) :
    tagStep tags (k ++ byte '=' :: rest) = tags := by
  have h2 := Split_length_of_mem hrest
  unfold tagStep
  rw [Split_append_cons rest hkeq]
  split
  · rename_i spl0 spl1 heq
    simp only [List.cons.injEq] at heq
    rw [heq.2] at h2
    simp at h2
  · rfl

theorem tagStep_no_eq (tags : Tags) {x : GoString} (h : byte '=' ∉ x) :
    tagStep tags x = tags := by
  simp [tagStep, Split_of_not_mem h]

theorem tagStep_empty_key (tags : Tags) (rest : GoString) :
    tagStep tags (byte '=' :: rest) = tags := by
  unfold tagStep
  simp only [Split, if_true]
  split
  · rename_i spl0 spl1 heq
    simp only [List.cons.injEq] at heq
    simp [← heq.1]
  · rfl

theorem tagStep_eq_append (tags : Tags) (x : GoString) :
    tagStep tags x = tags ++ tagStep [] x := by
  unfold tagStep
  split
  · split_ifs <;> simp
  · simp

theorem tagStep_nil_length_le (x : GoString) : (tagStep [] x).length ≤ 1 := by
  unfold tagStep
  split
  · split_ifs <;> simp
  · simp

theorem foldl_tagStep (flags : List GoString) :
    ∀ tags : Tags, flags.foldl tagStep tags = tags ++ flags.flatMap (tagStep []) := by
  induction flags with
  | nil => intro tags; simp
  | cons x xs ih =>
    intro tags
    rw [List.foldl_cons, ih, tagStep_eq_append tags x]
    simp [List.flatMap_cons]

theorem foldl_append_singleton {α β : Type} (f : α → β) (l : List α) :
    ∀ init : List β, l.foldl (fun acc a => acc ++ [f a]) init = init ++ l.map f := by
  induction l with
  | nil => intro init; simp
  | cons x xs ih => intro init; rw [List.foldl_cons, ih]; simp

theorem collectTags_eq (c : Context) :
    collectTags c = c.tag.flatMap (tagStep []) ++ c.e.map (fun X => [str "e", X])
      ++ c.p.map (fun X => [str "p", X]) := by
  unfold collectTags
  simp only [foldl_tagStep, List.nil_append]
  rw [foldl_append_singleton (fun X => [str "e", X]),
    foldl_append_singleton (fun X => [str "p", X])]

theorem assembleTags_eq_collectTags (c : Context) : assembleTags c = collectTags c := by
  unfold assembleTags
  have h := foldl_append_singleton (fun t : Tag => t) (collectTags c) []
  simp only [List.map_id_fun, id_eq, List.nil_append] at h
  by_cases hl : (collectTags c).length > 0
  · simp only [hl, if_true]
    simpa using h
  · have : collectTags c = [] := List.length_eq_zero.mp (by omega)
    simp [this]

theorem assembleTags_eq (c : Context) :
    assembleTags c = c.tag.flatMap (tagStep []) ++ c.e.map (fun X => [str "e", X])
      ++ c.p.map (fun X => [str "p", X]) := by
  rw [assembleTags_eq_collectTags, collectTags_eq]

theorem buildEvent_Tags (env : Env) (c : Context) (evt : Event)
    (h : buildEvent env c = .ok evt) : evt.Tags = assembleTags c := by
  unfold buildEvent at h
  split at h
  · cases h
  · cases h; rfl


/-! ## Claims on tag assembly -/

/-- C1. For a non-empty key `k` and a non-empty list of values `vs`, none of
them containing `=` or `;`, the tag expression `k=v1;v2;...;vn` adds exactly one
tag, and that tag is `[k, v1, ..., vn]`: one loop iteration appends it to the
tags collected so far, and wherever the expression stands among the `--tag`
values the tags of the event are those of the expressions before it, then this
tag, then those of the expressions after it, then the `e` and `p` tags. -/
theorem generic_tag_exact (k : GoString) (vs : List GoString)
    (hk : k ≠ []) (hvs : vs ≠ [])
    (hkeq : byte '=' ∉ k) (hksemi : byte ';' ∉ k)
    (hv : ∀ v ∈ vs, byte '=' ∉ v ∧ byte ';' ∉ v) :
    (∀ tags : Tags,
        tagStep tags (k ++ byte '=' :: List.intercalate [byte ';'] vs) = tags ++ [k :: vs]) ∧
    (∀ (c : Context) (before after : List GoString),
        c.tag = before ++ (k ++ byte '=' :: List.intercalate [byte ';'] vs) :: after →
        assembleTags c =
          before.flatMap (tagStep []) ++ [k :: vs] ++ after.flatMap (tagStep [])
            ++ c.e.map (fun X => [str "e", X]) ++ c.p.map (fun X => [str "p", X])) := by
  have _ := hksemi
  have hrest : byte '=' ∉ List.intercalate [byte ';'] vs :=
    not_mem_intercalate (by decide) vs (fun v m => (hv v m).1)
  have hsplit : Split (List.intercalate [byte ';'] vs) (byte ';') = vs :=
    Split_intercalate vs hvs (fun v m => (hv v m).2)
  have hstep : ∀ tags : Tags,
      tagStep tags (k ++ byte '=' :: List.intercalate [byte ';'] vs) = tags ++ [k :: vs] := by
    intro tags
    rw [tagStep_accept tags hk hkeq hrest, hsplit]
  refine ⟨hstep, ?_⟩
  intro c before after hc
  rw [assembleTags_eq, hc]
  simp [List.flatMap_append, List.flatMap_cons, hstep []]

/-- C1, instance: `k=v1;;v3` gives the tag `[k, v1, "", v3]`. -/
theorem generic_tag_exact_witness :
    tagStep [] (str "k" ++ byte '=' :: List.intercalate [byte ';'] [str "v1", [], str "v3"])
      = [] ++ [[str "k", str "v1", [], str "v3"]] :=
  (generic_tag_exact (str "k") [str "v1", [], str "v3"] (by decide) (by decide) (by decide)
    (by decide) (by decide)).1 []

/-- C2, as stated, fails: the expression `r=a=b` contains `=` and the text before
its first `=` is the non-empty `r`, yet no tag is added, where the claim asks for
the tag `[r, a=b]`. -/
theorem first_eq_split_counterexample :
    byte '=' ∈ str "r=a=b" ∧
    str "r=a=b" = str "r" ++ byte '=' :: str "a=b" ∧
    str "r" ≠ [] ∧ byte '=' ∉ str "r" ∧
    tagStep [] (str "r=a=b") = [] ∧
    tagStep [] (str "r=a=b") ≠ [str "r" :: Split (str "a=b") (byte ';')] ∧
    assembleTags { sampleContext with tag := [str "r=a=b"], e := [], p := [] } = [] := by
  decide

/-- C2, amended. An expression is accepted only when it contains exactly one
`=`: with a non-empty text `k` before the first `=`, if the text `rest` after it
contains no further `=` then exactly one tag is added, `k` followed by `rest`
split on `;`; if `rest` contains another `=` then no tag is added. -/
theorem single_eq_split (tags : Tags) (k rest : GoString)
    (hk : k ≠ []) (hkeq : byte '=' ∉ k) :
    (byte '=' ∉ rest →
      tagStep tags (k ++ byte '=' :: rest) = tags ++ [k :: Split rest (byte ';')]) ∧
    (byte '=' ∈ rest → tagStep tags (k ++ byte '=' :: rest) = tags) :=
  ⟨fun hrest => tagStep_accept tags hk hkeq hrest,
   fun hrest => tagStep_many_eq tags hkeq hrest⟩

/-- C2 amended, instances: `r=a;b` gives `[r, a, b]`, and `r=a=b` gives nothing. -/
theorem single_eq_split_witness :
    tagStep [] (str "r" ++ byte '=' :: str "a;b") = [] ++ [str "r" :: Split (str "a;b") (byte ';')] ∧
    tagStep [] (str "r" ++ byte '=' :: str "a=b") = [] :=
  ⟨(single_eq_split [] (str "r") (str "a;b") (by decide) (by decide)).1 (by decide),
   (single_eq_split [] (str "r") (str "a=b") (by decide) (by decide)).2 (by decide)⟩

/-- C3. A tag expression with no `=`, or with nothing before its `=`, adds no
tag and raises no error: the loop iteration leaves the collected tags as they
were, and the whole run (effects and returned error) is the run of the same
invocation without that expression. -/
theorem malformed_tag_dropped (env : Env) (c : Context) (before after : List GoString)
    (x : GoString) (hx : byte '=' ∉ x ∨ ∃ rest, x = byte '=' :: rest)
    (hc : c.tag = before ++ x :: after) :
    (∀ tags : Tags, tagStep tags x = tags) ∧
    assembleTags c = assembleTags { c with tag := before ++ after } ∧
    Action env c = Action env { c with tag := before ++ after } := by
  have hstep : ∀ tags : Tags, tagStep tags x = tags := by
    intro tags
    rcases hx with h | ⟨rest, rfl⟩
    · exact tagStep_no_eq tags h
    · exact tagStep_empty_key tags rest
  have htags : assembleTags c = assembleTags { c with tag := before ++ after } := by
    rw [assembleTags_eq, assembleTags_eq, hc]
    simp [List.flatMap_append, List.flatMap_cons, hstep []]
  refine ⟨hstep, htags, ?_⟩
  simp only [Action, buildEvent, renderResult, htags]

/-- C3, instance: in `-t k=v1;;v3 -t zz` the expression `zz` is dropped. -/
theorem malformed_tag_dropped_witness :
    (byte '=' ∉ str "zz" ∨ ∃ rest, str "zz" = byte '=' :: rest) ∧
    sampleContext.tag = [str "k=v1;;v3"] ++ str "zz" :: [] ∧
    ((∀ tags : Tags, tagStep tags (str "zz") = tags) ∧
     assembleTags sampleContext
       = assembleTags { sampleContext with tag := [str "k=v1;;v3"] ++ [] } ∧
     Action sampleEnv sampleContext
       = Action sampleEnv { sampleContext with tag := [str "k=v1;;v3"] ++ [] }) :=
  ⟨Or.inl (by decide), by decide,
   malformed_tag_dropped sampleEnv sampleContext [str "k=v1;;v3"] [] (str "zz")
     (Or.inl (by decide)) (by decide)⟩

/-- C4. The tags of the event are the tags of the accepted `--tag` expressions in
flag order, then the tag `[e, X]` for each `-e` value `X` in order, then the tag
`[p, X]` for each `-p` value `X` in order, and nothing else; every `--tag`
expression contributes at most one tag; and this sequence is the `Tags` field of
the event that reaches the signer. -/
theorem tags_in_source_order (env : Env) (c : Context) :
    assembleTags c =
      c.tag.flatMap (tagStep []) ++ c.e.map (fun X => [str "e", X])
        ++ c.p.map (fun X => [str "p", X]) ∧
    (∀ x ∈ c.tag, (tagStep [] x).length ≤ 1) ∧
    (∀ evt, buildEvent env c = .ok evt → evt.Tags = assembleTags c) :=
  ⟨assembleTags_eq c, fun x _ => tagStep_nil_length_le x, buildEvent_Tags env c⟩

/-- C4, instance: `-t k=v1;;v3 -t zz -e 1 -p 2`. -/
theorem tags_in_source_order_witness :
    buildEvent sampleEnv sampleContext = .ok sampleEvent ∧
    sampleEvent.Tags = assembleTags sampleContext :=
  ⟨by decide, (tags_in_source_order sampleEnv sampleContext).2.2 sampleEvent (by decide)⟩

/-! ## Created-at -/

theorem Unix_Unix (v : Int) (h1 : -2 ^ 63 ≤ v) (h2 : v < 2 ^ 63) : (Unix v 0).Unix = v := by
  simp only [Unix, Time.Unix, Time.sec, wrapInt64, unixToInternal, internalToUnix]
  norm_num
  omega

theorem ParseInt_range {s : GoString} {v : Int} (h : ParseInt s = .ok v) :
    -2 ^ 63 ≤ v ∧ v < 2 ^ 63 := by
  cases s with
  | nil => simp [ParseInt] at h
  | cons c cs =>
    simp only [ParseInt] at h
    split at h
    · cases h
    · by_cases hneg : c = byte '-'
      · simp only [hneg, not_true_eq_false, false_and, if_false, true_and, if_true] at h
        split_ifs at h with h1
        cases h
        omega
      · simp only [hneg, not_false_eq_true, true_and, false_and, if_false] at h
        split_ifs at h with h1
        cases h
        omega

theorem resolveCreatedAt_literal (env : Env) {s : GoString} {v : Int}
    (hnow : s ≠ str "now") (h : ParseInt s = .ok v) :
    resolveCreatedAt env s = .ok (Unix v 0) := by
  simp [resolveCreatedAt, hnow, h]

theorem Action_sign_first (env : Env) (c : Context) (evt : Event)
    (h : buildEvent env c = .ok evt) :
    ∃ rest, (Action env c).1 = Effect.sign evt c.sec :: rest := by
  unfold Action
  rw [h]
  simp only
  split
  · exact ⟨[], rfl⟩
  · split_ifs
    · exact ⟨_, rfl⟩
    · exact ⟨_, rfl⟩

/-- C5. When the created-at string is not `now` and `strconv.ParseInt` reads it
as the integer `v`, then `v` is an `int64`, the conversion
`time.Unix(v, 0).Unix()` gives `v` back (as it does for every `int64`), and the
event handed to the signer, the first effect of the run, has `CreatedAt = v`. -/
theorem created_at_literal (env : Env) (c : Context) (v : Int)
    (hnow : c.createdAt ≠ str "now") (hparse : ParseInt c.createdAt = .ok v) :
    (-2 ^ 63 ≤ v ∧ v < 2 ^ 63) ∧
    (∀ w : Int, -2 ^ 63 ≤ w → w < 2 ^ 63 → (Unix w 0).Unix = w) ∧
    ∃ evt, buildEvent env c = .ok evt ∧ evt.CreatedAt = v ∧
      ∃ rest, (Action env c).1 = Effect.sign evt c.sec :: rest := by
  have hr := ParseInt_range hparse
  refine ⟨hr, Unix_Unix, ?_⟩
  have hb : buildEvent env c = .ok
      { ID := [], PubKey := [], CreatedAt := (Unix v 0).Unix, Kind := c.kind,
        Tags := assembleTags c, Content := c.content, Sig := [] } := by
    simp [buildEvent, resolveCreatedAt_literal env hnow hparse]
  exact ⟨_, hb, Unix_Unix v hr.1 hr.2, Action_sign_first env c _ hb⟩

/-- C5, instance: the smallest `int64`, `--ts -9223372036854775808`. -/
theorem created_at_literal_witness :
    str "-9223372036854775808" ≠ str "now" ∧
    ParseInt (str "-9223372036854775808") = .ok (-9223372036854775808) ∧
    ∃ evt, buildEvent sampleEnv { sampleContext with createdAt := str "-9223372036854775808" }
        = .ok evt ∧ evt.CreatedAt = -9223372036854775808 ∧
      ∃ rest, (Action sampleEnv { sampleContext with createdAt := str "-9223372036854775808" }).1
        = Effect.sign evt (str "01") :: rest :=
  ⟨by decide, by decide,
   (created_at_literal sampleEnv { sampleContext with createdAt := str "-9223372036854775808" }
      (-9223372036854775808) (by decide) (by decide)).2.2⟩

/-! ## The run as a whole -/

theorem buildEvent_error_iff (env : Env) (c : Context) :
    (∃ e, buildEvent env c = .error e) ↔
      (c.createdAt ≠ str "now" ∧ ∃ err, ParseInt c.createdAt = .error err) := by
  unfold buildEvent resolveCreatedAt
  by_cases hnow : c.createdAt = str "now"
  · simp [hnow]
  · cases hp : ParseInt c.createdAt <;> simp [hnow]

theorem Action_of_buildEvent_error (env : Env) (c : Context) (e : ActionError)
    (h : buildEvent env c = .error e) : Action env c = ([], .error e) := by
  simp [Action, h]

theorem Action_of_Sign_error (env : Env) (c : Context) (evt : Event) (err : GoString)
    (hb : buildEvent env c = .ok evt) (hs : env.Sign evt c.sec = .error err) :
    Action env c = ([Effect.sign evt c.sec], .error (ActionError.errorSigning err)) := by
  simp [Action, hb, hs]

theorem Action_render (env : Env) (c : Context) (evt signed : Event)
    (hb : buildEvent env c = .ok evt) (hs : env.Sign evt c.sec = .ok signed)
    (hargs : c.args = []) :
    Action env c = ([Effect.sign evt c.sec, Println (renderResult env c signed)], .ok ()) := by
  simp [Action, hb, hs, hargs]

theorem Action_publish (env : Env) (c : Context) (evt signed : Event)
    (hb : buildEvent env c = .ok evt) (hs : env.Sign evt c.sec = .ok signed)
    (hargs : c.args ≠ []) :
    Action env c =
      (Effect.sign evt c.sec :: Println (signed.String env) ::
        ((relayLoop env signed 0 c.args).1
          ++ (relayLoop env signed 0 c.args).2.reverse.map Effect.cancel), .ok ()) := by
  have hlen : c.args.length > 0 := List.length_pos.mpr hargs
  simp [Action, hb, hs, hlen]

theorem Action_ok_of_signed (env : Env) (c : Context) (evt signed : Event)
    (hb : buildEvent env c = .ok evt) (hs : env.Sign evt c.sec = .ok signed) :
    (Action env c).2 = .ok () := by
  by_cases hargs : c.args = []
  · rw [Action_render env c evt signed hb hs hargs]
  · rw [Action_publish env c evt signed hb hs hargs]

/-- C6. The command returns an error exactly when the created-at value is not
`now` and `strconv.ParseInt` rejects it, or the signer, invoked on the assembled
event, fails; whatever the relays and whatever the outcome of each connection
and publish, it returns `nil` when the event is assembled and signed. -/
theorem action_error_iff (env : Env) (c : Context) :
    ((∃ e, (Action env c).2 = .error e) ↔
      ((c.createdAt ≠ str "now" ∧ ∃ err, ParseInt c.createdAt = .error err) ∨
       (∃ evt err, buildEvent env c = .ok evt ∧ env.Sign evt c.sec = .error err))) ∧
    (∀ evt signed, buildEvent env c = .ok evt → env.Sign evt c.sec = .ok signed →
      (Action env c).2 = .ok ()) := by
  refine ⟨?_, fun evt signed hb hs => Action_ok_of_signed env c evt signed hb hs⟩
  rw [← buildEvent_error_iff env c]
  cases hb : buildEvent env c with
  | error e =>
    rw [Action_of_buildEvent_error env c e hb]
    simp
  | ok evt =>
    cases hs : env.Sign evt c.sec with
    | error err =>
      rw [Action_of_Sign_error env c evt err hb hs]
      simp [hs]
    | ok signed =>
      rw [Action_ok_of_signed env c evt signed hb hs]
      simp [hs]

/-- C6, instance: three relays, the first fails the publish, the second refuses
the connection, and the command still returns `nil`. -/
theorem action_error_iff_witness :
    buildEvent sampleEnv sampleContext = .ok sampleEvent ∧
    sampleEnv.Sign sampleEvent sampleContext.sec = .ok sampleSigned ∧
    (Action sampleEnv sampleContext).2 = .ok () :=
  ⟨by decide, by decide,
   (action_error_iff sampleEnv sampleContext).2 sampleEvent sampleSigned (by decide) (by decide)⟩

/-- C7. When the command returns an error it has written nothing to standard
output, nothing to the diagnostic stream and attempted no connection: its only
possible effect is the one call of the signer; and when the created-at value is
rejected the run has no effect at all, so the signer is not invoked. -/
theorem error_means_silent (env : Env) (c : Context) (e : ActionError)
    (h : (Action env c).2 = .error e) :
    stdoutWrites (Action env c).1 = [] ∧
    stderrWrites (Action env c).1 = [] ∧
    connectAttempts (Action env c).1 = [] ∧
    ((Action env c).1 = [] ∨ ∃ evt, (Action env c).1 = [Effect.sign evt c.sec]) ∧
    (∀ err, c.createdAt ≠ str "now" → ParseInt c.createdAt = .error err →
      (Action env c).1 = [] ∧ signerCalls (Action env c).1 = []) := by
  have hparse : ∀ err, c.createdAt ≠ str "now" → ParseInt c.createdAt = .error err →
      (Action env c).1 = [] ∧ signerCalls (Action env c).1 = [] := by
    intro err hnow hp
    obtain ⟨e2, he2⟩ := (buildEvent_error_iff env c).mpr ⟨hnow, err, hp⟩
    rw [Action_of_buildEvent_error env c e2 he2]
    exact ⟨rfl, rfl⟩
  cases hb : buildEvent env c with
  | error e2 =>
    rw [Action_of_buildEvent_error env c e2 hb]
    rw [Action_of_buildEvent_error env c e2 hb] at hparse
    exact ⟨rfl, rfl, rfl, Or.inl rfl, hparse⟩
  | ok evt =>
    cases hs : env.Sign evt c.sec with
    | error err =>
      rw [Action_of_Sign_error env c evt err hb hs]
      rw [Action_of_Sign_error env c evt err hb hs] at hparse
      exact ⟨rfl, rfl, rfl, Or.inr ⟨evt, rfl⟩, hparse⟩
    | ok signed =>
      rw [Action_ok_of_signed env c evt signed hb hs] at h
      cases h

/-- C7, instance: `--ts abc` is rejected and the run has no effect. -/
theorem error_means_silent_witness :
    (Action sampleEnv { sampleContext with createdAt := str "abc" }).2
      = .error (ActionError.failedToParseTimestamp (str "abc") NumError.ErrSyntax) ∧
    (Action sampleEnv { sampleContext with createdAt := str "abc" }).1 = [] :=
  ⟨by decide,
   ((error_means_silent sampleEnv { sampleContext with createdAt := str "abc" }
      (ActionError.failedToParseTimestamp (str "abc") NumError.ErrSyntax) (by decide)).2.2.2.2
        NumError.ErrSyntax (by decide) (by decide)).1⟩

/-- C8. In render-only mode (no relay argument, the event assembled and signed)
the run is the call of the signer followed by one `fmt.Println` of one line: no
connection is attempted, nothing goes to the diagnostic stream, and the line is
`json.Marshal` of the two-element slice `["EVENT", event]` when `--envelope` is
set (with or without `--nson`), else `nson.Marshal` of the event when `--nson`
is set, else `easyjson.Marshal` of the event. -/
theorem render_only (env : Env) (c : Context) (evt signed : Event)
    (hb : buildEvent env c = .ok evt) (hs : env.Sign evt c.sec = .ok signed)
    (hargs : c.args = []) :
    ∃ line : GoString,
      Action env c = ([Effect.sign evt c.sec, Effect.stdout (line ++ str "\n")], .ok ()) ∧
      stdoutWrites (Action env c).1 = [line ++ str "\n"] ∧
      connectAttempts (Action env c).1 = [] ∧
      stderrWrites (Action env c).1 = [] ∧
      (c.envelope = true →
        line = env.jsonMarshal [Any.string (str "EVENT"), Any.event signed]) ∧
      (c.envelope = false → c.nson = true → line = env.nsonMarshal signed) ∧
      (c.envelope = false → c.nson = false → line = env.easyjsonMarshal signed) := by
  refine ⟨renderResult env c signed, ?_, ?_, ?_, ?_, ?_, ?_, ?_⟩
  · exact Action_render env c evt signed hb hs hargs
  · rw [Action_render env c evt signed hb hs hargs]; rfl
  · rw [Action_render env c evt signed hb hs hargs]; rfl
  · rw [Action_render env c evt signed hb hs hargs]; rfl
  · intro h; simp [renderResult, h]
  · intro h1 h2; simp [renderResult, h1, h2]
  · intro h1 h2; simp [renderResult, h1, h2]

/-- C8, instance: `--envelope --nson` without relays prints the envelope. -/
theorem render_only_witness :
    ∃ line : GoString,
      Action sampleEnv { sampleContext with envelope := true, nson := true, args := [] }
        = ([Effect.sign sampleEvent (str "01"), Effect.stdout (line ++ str "\n")], .ok ()) ∧
      line = sampleEnv.jsonMarshal [Any.string (str "EVENT"), Any.event sampleSigned] := by
  obtain ⟨line, h1, _, _, _, h5, _, _⟩ :=
    render_only sampleEnv { sampleContext with envelope := true, nson := true, args := [] }
      sampleEvent sampleSigned (by decide) (by decide) (by decide)
  exact ⟨line, h1, h5 rfl⟩

/-! ## Publish mode -/

theorem relayLoop_cons (env : Env) (evt : Event) (i : Nat) (url : GoString)
    (rest : List GoString) :
    ∃ body : List Effect,
      (relayLoop env evt i (url :: rest)).1
        = Effect.stderr (announcement url) :: Effect.relayConnect url :: body
          ++ (relayLoop env evt (i + 1) rest).1 ∧
      stdoutWrites body = [] ∧ connectAttempts body = [] ∧
      stderrWrites body = [outcomeReport env evt i url] := by
  simp only [relayLoop, outcomeReport, announcement]
  cases env.RelayConnect i url with
  | error err => exact ⟨_, rfl, rfl, rfl, rfl⟩
  | ok u =>
    cases env.Publish i url evt with
    | error err => exact ⟨_, rfl, rfl, rfl, rfl⟩
    | ok status => exact ⟨_, rfl, rfl, rfl, rfl⟩

theorem relayLoop_observed (env : Env) (evt : Event) (relays : List GoString) :
    ∀ i : Nat,
      stdoutWrites (relayLoop env evt i relays).1 = [] ∧
      connectAttempts (relayLoop env evt i relays).1 = relays ∧
      stderrWrites (relayLoop env evt i relays).1 =
        (relays.enumFrom i).flatMap
          (fun p => [announcement p.2, outcomeReport env evt p.1 p.2]) := by
  induction relays with
  | nil => intro i; exact ⟨rfl, rfl, rfl⟩
  | cons url rest ih =>
    intro i
    obtain ⟨body, hshape, hout, hconn, herr⟩ := relayLoop_cons env evt i url rest
    obtain ⟨ih1, ih2, ih3⟩ := ih (i + 1)
    rw [hshape]
    simp only [stdoutWrites, stderrWrites, connectAttempts] at hout hconn herr ih1 ih2 ih3 ⊢
    refine ⟨?_, ?_, ?_⟩
    · simp [List.filterMap_cons, List.filterMap_append, hout, ih1]
    · simp [List.filterMap_cons, List.filterMap_append, hconn, ih2]
    · simp [List.filterMap_cons, List.filterMap_append, herr, ih3, List.enumFrom_cons,
        List.flatMap_cons]

theorem cancels_observed (scopes : List Nat) :
    stdoutWrites (scopes.map Effect.cancel) = [] ∧
    connectAttempts (scopes.map Effect.cancel) = [] ∧
    stderrWrites (scopes.map Effect.cancel) = [] := by
  induction scopes with
  | nil => exact ⟨rfl, rfl, rfl⟩
  | cons s rest ih =>
    obtain ⟨h1, h2, h3⟩ := ih
    simp only [stdoutWrites, stderrWrites, connectAttempts] at h1 h2 h3 ⊢
    refine ⟨?_, ?_, ?_⟩ <;> simp [List.filterMap_cons, h1, h2, h3]

theorem buildEvent_flags (env : Env) (c : Context) (envelope nson : Bool) :
    buildEvent env { c with envelope := envelope, nson := nson } = buildEvent env c := by
  simp only [buildEvent, assembleTags, collectTags]

/-- C9. In publish mode (at least one relay argument, the event assembled and
signed) the run is: the call of the signer; one `fmt.Println` of
`easyjson.Marshal` of the signed event, the default encoding, whatever
`--envelope` and `--nson` say (the whole run does not depend on them); then
effects among which nothing more goes to standard output, the connection
attempts are exactly the relay arguments in order, one attempt each, and the
writes to the diagnostic stream are, relay by relay in order, the announcement
of that relay followed by its one outcome report. -/
theorem publish_mode (env : Env) (c : Context) (evt signed : Event)
    (hb : buildEvent env c = .ok evt) (hs : env.Sign evt c.sec = .ok signed)
    (hargs : c.args ≠ []) :
    ∃ rest : List Effect,
      Action env c =
        (Effect.sign evt c.sec :: Effect.stdout (env.easyjsonMarshal signed ++ str "\n") :: rest,
          .ok ()) ∧
      stdoutWrites rest = [] ∧
      connectAttempts rest = c.args ∧
      stderrWrites rest =
        c.args.enum.flatMap (fun p => [announcement p.2, outcomeReport env signed p.1 p.2]) ∧
      (stderrWrites rest).length = 2 * c.args.length ∧
      (∀ envelope nson : Bool,
        Action env { c with envelope := envelope, nson := nson } = Action env c) := by
  obtain ⟨h1, h2, h3⟩ := relayLoop_observed env signed c.args 0
  obtain ⟨k1, k2, k3⟩ := cancels_observed (relayLoop env signed 0 c.args).2.reverse
  have herr : stderrWrites ((relayLoop env signed 0 c.args).1
      ++ (relayLoop env signed 0 c.args).2.reverse.map Effect.cancel) =
      c.args.enum.flatMap (fun p => [announcement p.2, outcomeReport env signed p.1 p.2]) := by
    simp only [stderrWrites, List.filterMap_append] at h3 k3 ⊢
    rw [h3, k3, List.append_nil, List.enum]
  refine ⟨(relayLoop env signed 0 c.args).1
      ++ (relayLoop env signed 0 c.args).2.reverse.map Effect.cancel, ?_, ?_, ?_, herr, ?_, ?_⟩
  · exact Action_publish env c evt signed hb hs hargs
  · simp only [stdoutWrites, List.filterMap_append] at h1 k1 ⊢
    rw [h1, k1]; rfl
  · simp only [connectAttempts, List.filterMap_append] at h2 k2 ⊢
    rw [h2, k2, List.append_nil]
  · rw [herr]
    simp [List.length_flatMap, List.enum, Function.comp_def]
    omega
  · intro envelope nson
    have hb2 := buildEvent_flags env c envelope nson
    rw [Action_publish env c evt signed hb hs hargs,
      Action_publish env { c with envelope := envelope, nson := nson } evt signed
        (by rw [hb2]; exact hb) hs hargs]

/-- C9, instance: three relays; the first fails the publish, the second refuses
the connection, the third accepts; all three are attempted in order. -/
theorem publish_mode_witness :
    ∃ rest : List Effect,
      Action sampleEnv sampleContext =
        (Effect.sign sampleEvent (str "01")
          :: Effect.stdout (sampleEnv.easyjsonMarshal sampleSigned ++ str "\n") :: rest, .ok ()) ∧
      connectAttempts rest = [str "r1", str "r2", str "r3"] ∧
      (stderrWrites rest).length = 2 * 3 := by
  obtain ⟨rest, h1, _, h3, _, h5, _⟩ :=
    publish_mode sampleEnv sampleContext sampleEvent sampleSigned (by decide) (by decide)
      (by decide)
  exact ⟨rest, h1, h3, h5⟩

/-- C10 fails on the code: with two relays that both accept the connection, the
`cancel` of the first relay's timeout scope (scope 0), deferred on line 140,
runs only when `Action` returns, after the announcement and the connection
attempt of the second relay, and two scopes are live during the second publish. -/
theorem cancel_deferred_until_return :
    (Action acceptingEnv twoRelayContext).1 =
      [Effect.sign sampleEvent (str "01"),
       Effect.stdout (str "Ehi\n"),
       Effect.stderr (str "publishing to r1... "),
       Effect.relayConnect (str "r1"),
       Effect.withTimeout 0 10,
       Effect.publish (str "r1") 0 sampleSigned,
       Effect.stderr (str "success.\n"),
       Effect.stderr (str "publishing to r2... "),
       Effect.relayConnect (str "r2"),
       Effect.withTimeout 1 10,
       Effect.publish (str "r2") 1 sampleSigned,
       Effect.stderr (str "success.\n"),
       Effect.cancel 1,
       Effect.cancel 0] ∧
    liveScopes 0 (Action acceptingEnv twoRelayContext).1 =
      [0, 0, 0, 0, 1, 1, 1, 1, 1, 2, 2, 2, 1, 0] := by
  decide

end Nak
